import Mathlib

/-!
Verification development for the data-preprocessing tool
(`app.py` and `src/preprocessing/data_preprocessor.py`).

The two Python files implement the same two pipelines: a clinic-name
pipeline and an isolated-organism pipeline, each made of a normalizer,
a fuzzy-similarity grouper, a mapping store, and an applier.  This file
gives a shallow embedding of those components over `List Char` / `String`
and proves or refutes the specification's claims about them.

Conventions of the embedding:
* Python code that can raise (`words[0]` / `words[-1]` / `matches[1]` on
  a too-short list) is embedded as an `Option`-valued function, `none`
  standing for the raised `IndexError`.
* Python dictionaries keyed by strings are embedded as association lists
  (`List (String × String)`); keys are unique in all uses, and only
  `in`, `get` and comprehension-filtering are ever performed on them.
* The fuzzywuzzy scorer (`process.extract`'s `WRatio`) is an external
  library, not part of the repository; groupers are parameterised by an
  arbitrary scorer `score : String → String → Nat`, and the
  spec-described properties of the metric are captured by `ValidScorer`.
-/

/-! ### Character classes used by the Python regexes and `str` methods -/

/-- Python whitespace for `str.strip`, `str.split()` and the regex class
`\s` (ASCII range, which is all the source's inputs use). -/
def pySpace (c : Char) : Bool :=
  c = ' ' || c = '\t' || c = '\n' || c = '\r' || c = '\x0b' || c = '\x0c'

/-- Python regex word character (`\w`, ASCII range), used to decide the
word boundaries `\b` of the compiled patterns. -/
def wordChar (c : Char) : Bool :=
  c.isAlphanum || c = '_'

/-- A `\b` word boundary between a previous character (`none` at the start
of the string) and the current character. -/
def boundaryB (prev : Option Char) (c : Char) : Bool :=
  (match prev with | none => false | some p => wordChar p) != wordChar c

/-! ### `str` primitives -/

/-- Python `str.strip()` on a character list. -/
def strip (l : List Char) : List Char :=
  ((l.dropWhile pySpace).reverse.dropWhile pySpace).reverse

/-- Python `str.strip()` on a `String` (used on `&`-fragments and cells). -/
def pyStrip (s : String) : String :=
  String.mk (strip s.data)

/-- One step of the `[\s\-]+ → " "` substitution: `sep` records whether the
previous character was part of a whitespace/hyphen run already replaced. -/
def collapseSHAux : Bool → List Char → List Char
  | _, [] => []
  | sep, c :: cs =>
    if pySpace c || c = '-' then
      if sep then collapseSHAux true cs else ' ' :: collapseSHAux true cs
    else
      c :: collapseSHAux false cs

/-- The source's `patterns_iso_org["spaces_hyphens"]` substitution:
`re.sub(r"[\s\-]+", " ", ·)` — every maximal run of whitespace/hyphens
becomes a single space. -/
def collapseSH (l : List Char) : List Char :=
  collapseSHAux false l

/-- Python `str.split()` (split on whitespace runs, dropping empties);
`cur` is the reversed word currently being read. -/
def splitWsAux : List Char → List Char → List (List Char)
  | cur, [] => if cur.isEmpty then [] else [cur.reverse]
  | cur, c :: cs =>
    if pySpace c then
      if cur.isEmpty then splitWsAux [] cs
      else cur.reverse :: splitWsAux [] cs
    else
      splitWsAux (c :: cur) cs

/-- Python `str.split()`. -/
def splitWs (l : List Char) : List (List Char) :=
  splitWsAux [] l

/-- Python `" ".join(words)`. -/
def joinSp : List (List Char) → List Char
  | [] => []
  | [w] => w
  | w :: ws => w ++ ' ' :: joinSp ws

/-- Python `str.capitalize()`: first character upper-cased, the rest
lower-cased (ASCII behaviour, which covers all inputs in the source). -/
def capitalize : List Char → List Char
  | [] => []
  | c :: cs => c.toUpper :: cs.map Char.toLower

/-- Does `l` end with `suff`?  Implements the anchored regex
`\((suspected|possible)\)$` test by a literal suffix check (the pattern
is compiled without `re.I` and is only applied to lower-cased text). -/
def endsWithL (suff l : List Char) : Bool :=
  l.reverse.take suff.length == suff.reverse

/-- The `possible_suspected_parenthesis` test of the source:
the cleaned name ends in `(suspected)` or `(possible)`. -/
def parenEnd (l : List Char) : Bool :=
  endsWithL "(suspected)".data l || endsWithL "(possible)".data l

/-! ### The two scanning regexes

`duplicate_words  = \b(complex|species)\s+\1\b   (re.I)`
`possible_suspected = \ba?\s*(possible|suspected)\b (re.I)`

Both are embedded as left-to-right scanners over `List Char`, exactly as
Python's `re.sub` / `re.search` scan: try a match at each position, and
after a successful match continue scanning right after its end.  Matching
is case-insensitive and the matched source characters are returned (the
`\1` replacement and `match.group(1)` are the matched text). -/

/-- Case-insensitively match the lowercase literal `kw` at the head of
`l`; on success return the matched source characters and the rest. -/
def matchKwCI : List Char → List Char → Option (List Char × List Char)
  | [], l => some ([], l)
  | _ :: _, [] => none
  | k :: ks, c :: cs =>
    if c.toLower = k then
      (matchKwCI ks cs).map (fun p => (c :: p.1, p.2))
    else
      none

/-- Is the position after a match still a `\b` boundary?  The matched
keywords end in a word character, so the next character must not be a
word character (or the string must end). -/
def boundaryAfter : List Char → Bool
  | [] => true
  | c :: _ => !wordChar c

/-- Try the `duplicate_words` pattern `\b(complex|species)\s+\1\b` for the
keyword `kw` at the current position.  Returns the `\1` replacement text
and the rest of the string after the match. -/
def tryDupKw (kw : List Char) (l : List Char) : Option (List Char × List Char) :=
  match matchKwCI kw l with
  | none => none
  | some (g1, r1) =>
    let sp := r1.takeWhile pySpace
    if sp.isEmpty then none
    else
      match matchKwCI kw (r1.dropWhile pySpace) with
      | none => none
      | some (_, r2) => if boundaryAfter r2 then some (g1, r2) else none

/-- Try the `duplicate_words` pattern at the current position (leading
`\b`, then either keyword). -/
def tryDup (prev : Option Char) (l : List Char) : Option (List Char × List Char) :=
  match l with
  | [] => none
  | c :: _ =>
    if boundaryB prev c then
      match tryDupKw "complex".data l with
      | some r => some r
      | none => tryDupKw "species".data l
    else
      none

/-- `re.sub` scan for `duplicate_words`, replacing every non-overlapping
match by its first group; `fuel` bounds the scan by the input length. -/
def dupSubFuel : Nat → Option Char → List Char → List Char
  | 0, _, l => l
  | _ + 1, _, [] => []
  | fuel + 1, prev, c :: cs =>
    match tryDup prev (c :: cs) with
    | some (g1, rest) => g1 ++ dupSubFuel fuel (g1.getLastD 'x') rest
    | none => c :: dupSubFuel fuel (some c) cs

/-- The source's `patterns_iso_org["duplicate_words"]` substitution. -/
def dupSub (l : List Char) : List Char :=
  dupSubFuel l.length none l

/-- Match `(possible|suspected)\b` at the head of `l`, returning the group
text and the rest. -/
def tryQualCore (l : List Char) : Option (List Char × List Char) :=
  match matchKwCI "possible".data l with
  | some (g, r) => if boundaryAfter r then some (g, r) else none
  | none =>
    match matchKwCI "suspected".data l with
    | some (g, r) => if boundaryAfter r then some (g, r) else none
    | none => none

/-- Try the `possible_suspected` pattern `\ba?\s*(possible|suspected)\b`
at the current position.  The backtracking of `a?` and the greedy `\s*`
reduce to three deterministic cases, because the keywords start with a
letter other than `a` and contain no whitespace. -/
def tryQual (prev : Option Char) (l : List Char) : Option (List Char × List Char) :=
  match l with
  | [] => none
  | c :: cs =>
    if (c = 'a' || c = 'A') && boundaryB prev c then
      tryQualCore (cs.dropWhile pySpace)
    else if pySpace c && boundaryB prev c then
      tryQualCore ((c :: cs).dropWhile pySpace)
    else if boundaryB prev c then
      tryQualCore (c :: cs)
    else
      none

/-- `re.search` scan for `possible_suspected`: the first match's group. -/
def searchQualFuel : Nat → Option Char → List Char → Option (List Char)
  | 0, _, _ => none
  | _ + 1, _, [] => none
  | fuel + 1, prev, c :: cs =>
    match tryQual prev (c :: cs) with
    | some (g, _) => some g
    | none => searchQualFuel fuel (some c) cs

/-- `patterns_iso_org["possible_suspected"].search(·).group(1)`. -/
def searchQual (l : List Char) : Option (List Char) :=
  searchQualFuel l.length none l

/-- `re.sub` scan for `possible_suspected`, deleting every match. -/
def subQualFuel : Nat → Option Char → List Char → List Char
  | 0, _, l => l
  | _ + 1, _, [] => []
  | fuel + 1, prev, c :: cs =>
    match tryQual prev (c :: cs) with
    | some (g, rest) => subQualFuel fuel (g.getLastD 'x') rest
    | none => c :: subQualFuel fuel (some c) cs

/-- `patterns_iso_org["possible_suspected"].sub("", ·)`. -/
def subQual (l : List Char) : List Char :=
  subQualFuel l.length none l

/-! ### The organism normalizer `clean_org_name`

Identical in `app.py` (lines 74–99) and `data_preprocessor.py`
(lines 84–109).  Python raises `IndexError` at `words[0]` when the word
list is empty in the last two branches; those paths return `none`. -/

/-- `clean_org_name(text)` of the source.  `none` models the `IndexError`
raised by `words[0]` on an empty word list. -/
def cleanOrgName (text : String) : Option String :=
  let orgName0 := collapseSH ((strip text.data).map Char.toLower)
  let orgName := dupSub orgName0
  if parenEnd orgName then
    some (String.mk
      (match splitWs orgName with
       | [] => orgName
       | w :: ws => capitalize w ++ ' ' :: joinSp ws))
  else
    match searchQual orgName with
    | some g =>
      match splitWs (strip (subQual orgName)) with
      | [] => none
      | w :: ws =>
        let cleanName := joinSp (splitWs (capitalize w ++ ' ' :: joinSp ws))
        some (String.mk (strip (cleanName ++ ' ' :: '(' :: g ++ [')'])))
    | none =>
      match splitWs orgName with
      | [] => none
      | w :: ws => some (String.mk (strip (capitalize w ++ ' ' :: joinSp ws)))

/-! ### Clinic-name helpers (`remove_clinic_dept`, `get_clinic_dept`) -/

/-- `remove_clinic_dept(text)`: drop the last whitespace token and rejoin
with single spaces (`" ".join(words[:-1])`); total, `""` on no tokens. -/
def removeClinicDept (text : String) : String :=
  String.mk (joinSp (splitWs text.data).dropLast)

/-- `get_clinic_dept(text)`: the last whitespace token (`words[-1]`);
`none` models the `IndexError` raised when there is no token. -/
def getClinicDept (text : String) : Option String :=
  ((splitWs text.data).getLast?).map String.mk

/-! ### Sorting and deduplication (Python `sorted`, `set`, `unique`) -/

/-- Lexicographic code-point comparison, Python's `<` on strings. -/
def lexLt : List Char → List Char → Bool
  | [], [] => false
  | [], _ :: _ => true
  | _ :: _, [] => false
  | a :: as, b :: bs => if a < b then true else if b < a then false else lexLt as bs

/-- Insert into an ascending list (stable insertion sort step). -/
def insAsc (x : String) : List String → List String
  | [] => [x]
  | y :: ys => if lexLt y.data x.data then y :: insAsc x ys else x :: y :: ys

/-- Python `sorted` on strings (ascending by code point). -/
def sortStr : List String → List String
  | [] => []
  | x :: xs => insAsc x (sortStr xs)

/-- Deduplication; the occurrence kept is irrelevant because every use
is followed by a sort. -/
def dedupStr : List String → List String
  | [] => []
  | x :: xs => if xs.contains x then dedupStr xs else x :: dedupStr xs

/-- Python `sorted(set(l))` (also `sorted(unique(l).tolist())`, whose
result is the same ascending list of the distinct values). -/
def pyUniqueSorted (l : List String) : List String :=
  sortStr (dedupStr l)

/-! ### Association-list embedding of the Python string dictionaries -/

/-- Python `key in mapping`. -/
def containsKey : List (String × String) → String → Bool
  | [], _ => false
  | e :: es, k => e.1 == k || containsKey es k

/-- Python `mapping.get(key, default)`. -/
def lookupD : List (String × String) → String → String → String
  | [], _, d => d
  | e :: es, k, d => if e.1 == k then e.2 else lookupD es k d

/-- Python `dict[key]` lookup on the grouper output dictionaries. -/
def findEntry : List (String × List String) → String → Option (List String)
  | [], _ => none
  | e :: es, k => if e.1 = k then some e.2 else findEntry es k

/-- Map an option-valued function over a list, failing if any element
fails — the shape of every Python loop that can raise mid-iteration. -/
def optMapList (f : α → Option β) : List α → Option (List β)
  | [] => some []
  | x :: xs =>
    match f x, optMapList f xs with
    | some y, some ys => some (y :: ys)
    | _, _ => none

/-! ### The similarity extractor `process.extract(query, choices, limit=10)`

fuzzywuzzy scores every choice with the scorer (in choice order) and
returns the 10 largest as `(choice, score)` pairs, descending by score
and stable (earlier choices first among ties — `heapq.nlargest`). -/

/-- Stable descending insertion by score: the new pair goes before the
first pair whose score is not larger. -/
def insDesc (x : String × Nat) : List (String × Nat) → List (String × Nat)
  | [] => [x]
  | y :: ys => if x.2 < y.2 then y :: insDesc x ys else x :: y :: ys

/-- Stable descending sort by score. -/
def sortDesc : List (String × Nat) → List (String × Nat)
  | [] => []
  | x :: xs => insDesc x (sortDesc xs)

/-- `process.extract(query, choices, limit=10)` for a given scorer. -/
def extractFW (score : String → String → Nat) (query : String)
    (choices : List String) : List (String × Nat) :=
  (sortDesc (choices.map (fun c => (c, score query c)))).take 10

/-! ### The clinic-name grouper

`app.py` lines 52–72 (`get_clinic_names_matches`) and the class variant
`data_preprocessor.py` lines 62–82.  The only difference: the app version
reads `matches[1][1]` unguarded (raising `IndexError` on a single-key
set), while the class version guards it with `if len(matches) > 1 else
100`. -/

/-- The candidate key set the clinic grouper works on:
`sorted(set(remove_clinic_dept(name) for name in
sorted(data[col].unique())))`. -/
def clinicKeySet (col : List String) : List String :=
  pyUniqueSorted ((pyUniqueSorted col).map removeClinicDept)

/-- One loop iteration of `app.py`'s `get_clinic_names_matches`: `none`
models the `IndexError` of the unguarded `matches[1][1]`.  The inner loop
appends every `m` in `matches[1:]` with `m[1] == highest_score`. -/
def appClinicEntry (score : String → String → Nat) (keys : List String)
    (key : String) : Option (String × List String) :=
  match extractFW score key keys with
  | _ :: m1 :: rest =>
    some (key, ((m1 :: rest).filter (fun p => p.2 == m1.2)).map (fun p => p.1))
  | _ => none

/-- The dictionary built by `app.py`'s loop over the key set (before the
mapping filter); `none` when some iteration raises. -/
def appClinicCore (score : String → String → Nat) (keys : List String) :
    Option (List (String × List String)) :=
  optMapList (appClinicEntry score keys) keys

/-- `app.py` `get_clinic_names_matches(data, col, mapping)`: build the
candidate dictionary, then drop keys already in `mapping`. -/
def getClinicNamesMatchesApp (score : String → String → Nat) (col : List String)
    (mapping : List (String × String)) : Option (List (String × List String)) :=
  (appClinicCore score (clinicKeySet col)).map
    (fun d => d.filter (fun e => !containsKey mapping e.1))

/-- One loop iteration of `DataPreprocessor.get_clinic_names_matches`:
`highest_score = matches[1][1] if len(matches) > 1 else 100`; the key
gets an entry only if some `m` in `matches[1:]` ties `highest_score`. -/
def dpClinicEntry (score : String → String → Nat) (keys : List String)
    (key : String) : Option (String × List String) :=
  let ms := extractFW score key keys
  let highest := match ms with | _ :: m1 :: _ => m1.2 | _ => 100
  match (ms.drop 1).filter (fun p => p.2 == highest) with
  | [] => none
  | c :: cs => some (key, ((c :: cs)).map (fun p => p.1))

/-- The dictionary built by the class variant's loop (total). -/
def dpClinicCore (score : String → String → Nat) (keys : List String) :
    List (String × List String) :=
  keys.filterMap (dpClinicEntry score keys)

/-- `DataPreprocessor.get_clinic_names_matches()` with the column and
mapping made explicit. -/
def getClinicNamesMatchesDP (score : String → String → Nat) (col : List String)
    (mapping : List (String × String)) : List (String × List String) :=
  (dpClinicCore score (clinicKeySet col)).filter (fun e => !containsKey mapping e.1)

/-! ### The organism grouper

`app.py` lines 214–222 and `data_preprocessor.py` lines 223–231 run, for
each organism of a letter batch: extract, drop the self-matches by name,
and if anything remains collect all ties at the top remaining score,
keyed by the organism unless it is already mapped. -/

/-- One iteration of the batch loop building `isolated_org_names_matches`.
`none` means no entry is added for `org`. -/
def isoEntry (score : String → String → Nat) (batch : List String)
    (mapping : List (String × String)) (org : String) :
    Option (String × List String) :=
  match (extractFW score org batch).filter (fun p => p.1 != org) with
  | [] => none
  | m0 :: rest =>
    if containsKey mapping org then none
    else some (org, ((m0 :: rest).filter (fun p => p.2 == m0.2)).map (fun p => p.1))

/-- The organism grouper over one batch (identical in both files). -/
def isolatedOrgMatches (score : String → String → Nat) (batch : List String)
    (mapping : List (String × String)) : List (String × List String) :=
  batch.filterMap (isoEntry score batch mapping)

/-! ### The organism applier

`app.py` lines 280–305 (`replaced_entry_list`) and the identical loop in
`DataPreprocessor.process_isolated_organisms` (lines 288–310): null cell
→ `''`; otherwise split on `&`, strip and clean each fragment, replace
through the mapping (pass-through when absent), rejoin with `" & "`.
The clean-name cache is a memo of the pure `clean_org_name` and has no
observable effect, so it is not modelled. -/

/-- Python `cell.split("&")` (keeps empty fragments). -/
def splitAmp : List Char → List (List Char)
  | [] => [[]]
  | c :: cs =>
    if c = '&' then [] :: splitAmp cs
    else
      match splitAmp cs with
      | w :: ws => (c :: w) :: ws
      | [] => [[c]]

/-- `cell.split("&")` on a `String`. -/
def splitAmpS (s : String) : List String :=
  (splitAmp s.data).map String.mk

/-- Python `" & ".join(l)`. -/
def joinWith (sep : List Char) : List (List Char) → List Char
  | [] => []
  | [w] => w
  | w :: ws => w ++ sep ++ joinWith sep ws

/-- `" & ".join(replaced)`. -/
def joinAmp (l : List String) : String :=
  String.mk (joinWith " & ".data (l.map String.data))

/-- One `&`-fragment of a cell: strip, clean, then
`mapping.get(cleaned_org, cleaned_org)`. -/
def processFragment (mapping : List (String × String)) (frag : String) :
    Option String :=
  (cleanOrgName (pyStrip frag)).map (fun c => lookupD mapping c c)

/-- One cell of the organism column (`none` cell = pandas null). -/
def processOrgCell (mapping : List (String × String)) :
    Option String → Option String
  | none => some ""
  | some s => (optMapList (processFragment mapping) (splitAmpS s)).map joinAmp

/-- The full `replaced_entry_list` loop over the organism column. -/
def replacedEntryList (mapping : List (String × String))
    (col : List (Option String)) : Option (List String) :=
  optMapList (processOrgCell mapping) col

/-! ### The clinic applier

`app.py` lines 180–188: `clinic_loc = col.apply(remove_clinic_dept)
.replace(mapping)`, `clinic_dept = col.apply(get_clinic_dept)
.replace({'Onc.': 'Oncology'})`, output `clinic_loc + ' ' + clinic_dept`. -/

/-- The department lookup table of the source. -/
def deptReplacements : List (String × String) := [("Onc.", "Oncology")]

/-- The clinic applier: `none` models the `IndexError` raised by
`get_clinic_dept` on a cell with no token. -/
def clinicApplier (mapping : List (String × String)) (col : List String) :
    Option (List String) :=
  (optMapList getClinicDept col).map (fun depts =>
    List.zipWith
      (fun loc dept => lookupD mapping loc loc ++ " " ++
        lookupD deptReplacements dept dept)
      (col.map removeClinicDept) depts)

/-! ### The similarity metric, modelled from the spec -/

/-- Modelled from the spec: the similarity scorer itself
(fuzzywuzzy's `process.extract` default `WRatio`) is an external library
that is not part of this repository; §4.3 describes it only as "an
approximate string-similarity score … a normalized token-based
edit-similarity metric producing an integer score in [0,100] (higher =
more similar)".  A valid scorer is therefore any function into [0,100]
that gives an exact match the maximal score 100. -/
def ValidScorer (score : String → String → Nat) : Prop :=
  (∀ x y, score x y ≤ 100) ∧ (∀ x, score x x = 100)

/-- Modelled from the spec: fuzzywuzzy's `full_process` pre-processing
("strips non-alphanumeric characters, lowercases"), under which distinct
raw strings can become equal and then score 100. -/
def pyProcess (s : String) : List Char :=
  (s.data.map Char.toLower).filter (fun c => c.isAlphanum)

/-- Modelled from the spec: a concrete valid scorer used for witnesses
and counterexamples — 100 for strings equal after `full_process`-style
normalization (as `WRatio` gives), 60 for a shared first letter, else 0. -/
def wScore (x y : String) : Nat :=
  if pyProcess x = pyProcess y then 100
  else if (pyProcess x).take 1 = (pyProcess y).take 1 then 60
  else 0

theorem wScore_valid : ValidScorer wScore := by
  constructor
  · intro x y
    unfold wScore
    split
    · exact le_refl 100
    · split
      · omega
      · omega
  · intro x
    simp [wScore]

/-! ### Helper lemmas about the embedding's list machinery -/

theorem mem_insDesc {y x : String × Nat} {l : List (String × Nat)} :
    y ∈ insDesc x l ↔ y = x ∨ y ∈ l := by
  induction l with
  | nil => simp [insDesc]
  | cons z zs ih =>
    simp only [insDesc]
    split
    · rw [List.mem_cons, ih, List.mem_cons]
      tauto
    · rw [List.mem_cons]

theorem mem_sortDesc {y : String × Nat} {l : List (String × Nat)} :
    y ∈ sortDesc l ↔ y ∈ l := by
  induction l with
  | nil => simp [sortDesc]
  | cons z zs ih => simp [sortDesc, mem_insDesc, ih]

theorem length_insDesc (x : String × Nat) (l : List (String × Nat)) :
    (insDesc x l).length = l.length + 1 := by
  induction l with
  | nil => rfl
  | cons z zs ih =>
    simp only [insDesc]
    split
    · simp [ih]
    · simp

theorem length_sortDesc (l : List (String × Nat)) :
    (sortDesc l).length = l.length := by
  induction l with
  | nil => rfl
  | cons z zs ih => simp [sortDesc, length_insDesc, ih]

theorem take_eq_self_of_le {α : Type} : ∀ (l : List α) (n : Nat), l.length ≤ n → l.take n = l
  | [], _, _ => by simp
  | _ :: _, 0, h => by simp at h
  | x :: xs, n + 1, h => by
    simp only [List.take]
    rw [take_eq_self_of_le xs n (by simpa using h)]

theorem scoresDesc_insDesc {x : String × Nat} {l : List (String × Nat)}
    (h : l.Pairwise (fun a b => b.2 ≤ a.2)) :
    (insDesc x l).Pairwise (fun a b => b.2 ≤ a.2) := by
  induction l with
  | nil => simp [insDesc]
  | cons z zs ih =>
    rw [List.pairwise_cons] at h
    obtain ⟨hz, hzs⟩ := h
    rw [insDesc]
    split
    · rename_i hlt
      rw [List.pairwise_cons]
      refine ⟨?_, ih hzs⟩
      intro b hb
      rcases mem_insDesc.mp hb with rfl | hb
      · exact Nat.le_of_lt hlt
      · exact hz b hb
    · rename_i hge
      have hge' : z.2 ≤ x.2 := Nat.le_of_not_lt hge
      rw [List.pairwise_cons]
      refine ⟨?_, List.pairwise_cons.mpr ⟨hz, hzs⟩⟩
      intro b hb
      rcases List.mem_cons.mp hb with rfl | hb
      · exact hge'
      · exact le_trans (hz b hb) hge'

theorem scoresDesc_sortDesc (l : List (String × Nat)) :
    (sortDesc l).Pairwise (fun a b => b.2 ≤ a.2) := by
  induction l with
  | nil => simp [sortDesc]
  | cons z zs ih => exact scoresDesc_insDesc ih

theorem le_foldr_max {l : List Nat} {a : Nat} (h : a ∈ l) :
    a ≤ l.foldr Nat.max 0 := by
  induction l with
  | nil => simp at h
  | cons b bs ih =>
    rcases List.mem_cons.mp h with rfl | h
    · exact Nat.le_max_left _ _
    · exact le_trans (ih h) (Nat.le_max_right _ _)

theorem foldr_max_le {l : List Nat} {b : Nat} (h : ∀ a ∈ l, a ≤ b) :
    l.foldr Nat.max 0 ≤ b := by
  induction l with
  | nil => simp
  | cons c cs ih =>
    simp only [List.foldr]
    exact Nat.max_le.mpr ⟨h c (by simp), ih (fun a ha => h a (by simp [ha]))⟩

theorem findEntry_some_mem {l : List (String × List String)} {k : String}
    {v : List String} (h : findEntry l k = some v) : (k, v) ∈ l := by
  induction l with
  | nil => simp [findEntry] at h
  | cons e es ih =>
    rw [findEntry] at h
    split at h
    · rename_i he
      have hv : v = e.2 := by injection h with h'; exact h'.symm
      subst hv
      have hke : (k, e.2) = e := by
        obtain ⟨e1, e2⟩ := e
        simp only [Prod.mk.injEq, and_true]
        exact he.symm
      rw [hke]
      exact List.mem_cons_self _ _
    · exact List.mem_cons.mpr (Or.inr (ih h))

theorem findEntry_eq_none {l : List (String × List String)} {k : String}
    (h : ∀ e ∈ l, e.1 ≠ k) : findEntry l k = none := by
  induction l with
  | nil => rfl
  | cons e es ih =>
    rw [findEntry]
    split
    · exact absurd (by assumption) (h e (by simp))
    · exact ih (fun e' he' => h e' (by simp [he']))

theorem optMapList_length {α β : Type} {f : α → Option β} :
    ∀ {xs : List α} {l : List β}, optMapList f xs = some l → l.length = xs.length := by
  intro xs
  induction xs with
  | nil => intro l h; simp [optMapList] at h; simp [← h]
  | cons x xs ih =>
    intro l h
    rw [optMapList] at h
    rcases hx : f x with _ | y <;> rw [hx] at h
    · simp at h
    · rcases hxs : optMapList f xs with _ | ys <;> rw [hxs] at h
      · simp at h
      · cases h
        simp [ih hxs]

theorem optMapList_get? {α β : Type} {f : α → Option β} :
    ∀ {xs : List α} {l : List β} {i : Nat} {x : α},
      optMapList f xs = some l → xs.get? i = some x → l.get? i = f x := by
  intro xs
  induction xs with
  | nil => intro l i x _ hx; simp at hx
  | cons z zs ih =>
    intro l i x h hx
    rw [optMapList] at h
    rcases hz : f z with _ | y <;> rw [hz] at h
    · simp at h
    · rcases hzs : optMapList f zs with _ | ys <;> rw [hzs] at h
      · simp at h
      · cases h
        cases i with
        | zero =>
          have hzx : z = x := by simpa using hx
          show some y = f x
          rw [← hzx, hz]
        | succ j =>
          have hx' : zs.get? j = some x := by simpa using hx
          show ys.get? j = f x
          exact ih hzs hx'

theorem optMapList_none {α β : Type} {f : α → Option β} {xs : List α} {x : α}
    (hx : x ∈ xs) (h : f x = none) : optMapList f xs = none := by
  induction xs with
  | nil => simp at hx
  | cons z zs ih =>
    rcases List.mem_cons.mp hx with rfl | hx'
    · rw [optMapList, h]
    · rw [optMapList, ih hx']
      cases f z <;> rfl

theorem lookupD_of_not_contains {m : List (String × String)} {k d : String}
    (h : containsKey m k = false) : lookupD m k d = d := by
  induction m with
  | nil => rfl
  | cons e es ih =>
    rw [containsKey] at h
    simp only [Bool.or_eq_false_iff] at h
    rw [lookupD]
    simp only [h.1, Bool.false_eq_true, if_false]
    exact ih h.2

/-- Unfolding characterisation of a produced organism-grouper entry: the
self-filtered match list is nonempty, the key is unmapped, and the entry
collects the names tied at the head (top) score. -/
theorem isoEntry_some_spec {score : String → String → Nat} {batch : List String}
    {mapping : List (String × String)} {org : String} {e : String × List String}
    (h : isoEntry score batch mapping org = some e) :
    ∃ m0 rest, (extractFW score org batch).filter (fun p => p.1 != org) = m0 :: rest ∧
      containsKey mapping org = false ∧
      e = (org, ((m0 :: rest).filter (fun p => p.2 == m0.2)).map (fun p => p.1)) := by
  unfold isoEntry at h
  split at h
  · simp at h
  · rename_i m0 rest hms
    split at h
    · simp at h
    · rename_i hc
      refine ⟨m0, rest, hms, by simpa using hc, ?_⟩
      injection h with h'
      exact h'.symm

/-- The highest similarity score observed from `k` to any *other* key of
the set — the "highest observed non-self score" of the claims. -/
def maxScoreExcl (score : String → String → Nat) (k : String) (keys : List String) : Nat :=
  ((keys.filter (fun j => j != k)).map (fun j => score k j)).foldr Nat.max 0

/-! ### Claim C1 -/

/-- C1: the claim says `clean_org_name` is idempotent; the code is not.
A single `re.sub` pass of `duplicate_words` does not collapse a cascade:
`"complex complex complex"` cleans to `"Complex complex"`, and cleaning
that again collapses further to `"Complex"`, so
`clean_org_name(clean_org_name(s)) ≠ clean_org_name(s)` with both
applications defined. -/
theorem c1_cleanOrgName_not_idempotent :
    cleanOrgName "complex complex complex" = some "Complex complex" ∧
    cleanOrgName "Complex complex" = some "Complex" := by
  decide

/-! ### Claim C3 -/

/-- C3 counterexample: the claimed output `"E coli (possible)"` is wrong —
no pattern of `clean_org_name` removes the period of `"E."`. -/
theorem c3_counterexample :
    cleanOrgName "possible E. Coli" ≠ some "E coli (possible)" := by
  decide

/-- C3 (amended): `clean_org_name("possible E. Coli")` returns exactly
`"E. coli (possible)"`, retaining the period after the genus initial. -/
theorem c3_possible_e_coli :
    cleanOrgName "possible E. Coli" = some "E. coli (possible)" := by
  decide

/-! ### Claim C4 -/

/-- C4: the claim (and the spec's edge case) say an empty-after-trimming
input returns `""`; the code instead reaches `words[0]` on an empty word
list and raises `IndexError` (embedded as `none`) — for both the plain
empty string and a whitespace-only string. -/
theorem c4_empty_input_raises :
    cleanOrgName "" = none ∧ cleanOrgName "   " = none := by
  decide

/-! ### Claim C8 -/

/-- C8: mapping pass-through in the organism applier.  Any `&`-fragment
of a cell whose cleaned form `c` has no Mapping Store entry appears in
the output fragments, at its own position, as `c` unchanged; the cell's
output is the `" & "`-join of those fragments. -/
theorem c8_mapping_pass_through (mapping : List (String × String)) (s : String)
    (l : List String) (i : Nat) (f c : String)
    (hl : optMapList (processFragment mapping) (splitAmpS s) = some l)
    (hf : (splitAmpS s).get? i = some f)
    (hc : cleanOrgName (pyStrip f) = some c)
    (hm : containsKey mapping c = false) :
    l.get? i = some c ∧ processOrgCell mapping (some s) = some (joinAmp l) := by
  constructor
  · have hg := optMapList_get? hl hf
    rw [hg]
    unfold processFragment
    rw [hc]
    simp [lookupD_of_not_contains hm]
  · show (optMapList (processFragment mapping) (splitAmpS s)).map joinAmp = some (joinAmp l)
    rw [hl]
    rfl

/-- C8 witness: the spec's own scenario — cell
`"E coli & possible Klebsiella"` with store `{"E coli": "Escherichia
coli"}`; the second fragment cleans to `"Klebsiella (possible)"`, is
unmapped, and passes through unchanged at position 1. -/
theorem c8_witness :
    (["Escherichia coli", "Klebsiella (possible)"] : List String).get? 1 =
      some "Klebsiella (possible)" ∧
    processOrgCell [("E coli", "Escherichia coli")]
      (some "E coli & possible Klebsiella") =
      some "Escherichia coli & Klebsiella (possible)" := by
  have h := c8_mapping_pass_through [("E coli", "Escherichia coli")]
    "E coli & possible Klebsiella" ["Escherichia coli", "Klebsiella (possible)"]
    1 " possible Klebsiella" "Klebsiella (possible)"
    (by decide) (by decide) (by decide) (by decide)
  exact ⟨h.1, h.2.trans (by decide)⟩

/-! ### Claim C9 -/

/-- C9: the organism applier turns every null cell into `""` at the same
position (null cells are neither cleaned nor looked up — their output is
fixed for every mapping), and the output column has the input's length,
positions corresponding one to one. -/
theorem c9_null_cells_empty_output (mapping : List (String × String))
    (col : List (Option String)) (out : List String) (i : Nat)
    (h : replacedEntryList mapping col = some out) :
    out.length = col.length ∧ (col.get? i = some none → out.get? i = some "") := by
  refine ⟨optMapList_length h, fun hc => ?_⟩
  have hg := optMapList_get? h hc
  rw [hg]
  rfl

/-- C9 witness: a column with a null second cell maps to `["E coli", ""]`,
same length, empty string at the null position. -/
theorem c9_witness :
    (["E coli", ""] : List String).length =
      ([some "e  coli", none] : List (Option String)).length ∧
    (["E coli", ""] : List String).get? 1 = some "" := by
  have h := c9_null_cells_empty_output [] [some "e  coli", none] ["E coli", ""] 1
    (by decide)
  exact ⟨h.1, h.2 (by decide)⟩

/-! ### Claim C6 -/

/-- C6: cluster exclusion.  For every key `k` already in the mapping, no
grouper output contains a cluster keyed by `k`: the app clinic grouper
filters the final dictionary, the class clinic grouper likewise, and the
organism grouper never adds an entry for a mapped key.  (`k` may still
appear inside other keys' candidate lists — see the witness.) -/
theorem c6_excluded_not_keyed (score : String → String → Nat)
    (col batch : List String) (mapping : List (String × String)) (k : String)
    (hk : containsKey mapping k = true) :
    (getClinicNamesMatchesApp score col mapping).bind (fun d => findEntry d k) = none ∧
    findEntry (getClinicNamesMatchesDP score col mapping) k = none ∧
    findEntry (isolatedOrgMatches score batch mapping) k = none := by
  refine ⟨?_, ?_, ?_⟩
  · unfold getClinicNamesMatchesApp
    cases happ : appClinicCore score (clinicKeySet col) with
    | none => rfl
    | some d =>
      show findEntry (List.filter (fun e => !containsKey mapping e.1) d) k = none
      apply findEntry_eq_none
      intro e he hek
      have hfe := (List.mem_filter.mp he).2
      rw [hek, hk] at hfe
      simp at hfe
  · unfold getClinicNamesMatchesDP
    apply findEntry_eq_none
    intro e he hek
    have hfe := (List.mem_filter.mp he).2
    rw [hek, hk] at hfe
    simp at hfe
  · apply findEntry_eq_none
    intro e he hek
    obtain ⟨org, _, hf⟩ := List.mem_filterMap.mp (by simpa [isolatedOrgMatches] using he)
    obtain ⟨m0, rest, _, hcm, hee⟩ := isoEntry_some_spec hf
    have h1 : e.1 = org := by rw [hee]
    rw [hek] at h1
    rw [← h1, hk] at hcm
    simp at hcm

/-- C6 witness: with store `{"ab": "AB"}` over keys `{"aa", "ab"}`, no
grouper output has a cluster keyed `"ab"`, yet `"ab"` still appears in
the candidate list of `"aa"` in the clinic grouper. -/
theorem c6_witness :
    ((getClinicNamesMatchesApp wScore ["aa X", "ab X"] [("ab", "AB")]).bind
        (fun d => findEntry d "ab") = none ∧
      findEntry (getClinicNamesMatchesDP wScore ["aa X", "ab X"] [("ab", "AB")]) "ab" =
        none ∧
      findEntry (isolatedOrgMatches wScore ["aa", "ab"] [("ab", "AB")]) "ab" = none) ∧
    (getClinicNamesMatchesApp wScore ["aa X", "ab X"] [("ab", "AB")]).bind
      (fun d => findEntry d "aa") = some ["ab"] :=
  ⟨c6_excluded_not_keyed wScore ["aa X", "ab X"] ["aa", "ab"] [("ab", "AB")] "ab"
      (by decide),
    by decide⟩

/-! ### Claim C7 -/

/-- C7 counterexample: the claim says a size-1 key set completes without
failing in both pipelines, but `app.py`'s clinic grouper reads
`matches[1][1]` unguarded and raises `IndexError` (embedded: the core
returns `none`), for any scorer. -/
theorem c7_counterexample :
    ¬ (∀ score : String → String → Nat, ValidScorer score →
        ∀ (k : String) (mapping : List (String × String)),
          (∃ d, appClinicCore score [k] = some d ∧ findEntry d k = none) ∧
          findEntry (isolatedOrgMatches score [k] mapping) k = none) := by
  intro h
  obtain ⟨⟨d, hd, _⟩, _⟩ := h wScore wScore_valid "a" []
  have hnone : appClinicCore wScore ["a"] = none := rfl
  rw [hnone] at hd
  cases hd

/-- C7 (amended): on a size-1 key set the class clinic grouper and the
organism grouper complete and produce no cluster entry at all, while the
`app.py` clinic grouper fails (`matches[1]` is out of range). -/
theorem c7_singleton_key_set (score : String → String → Nat) (k : String)
    (mapping : List (String × String)) :
    dpClinicCore score [k] = [] ∧ isolatedOrgMatches score [k] mapping = [] ∧
    appClinicCore score [k] = none := by
  refine ⟨rfl, ?_, rfl⟩
  show List.filterMap (isoEntry score [k] mapping) [k] = []
  have h : isoEntry score [k] mapping k = none := by
    unfold isoEntry
    have hflt : (extractFW score k [k]).filter (fun p => p.1 != k) = [] := by
      show List.filter (fun p => p.1 != k) [(k, score k k)] = []
      simp
    rw [hflt]
  simp [List.filterMap_cons, h]

/-! ### Claim C2 -/

/-- C2 counterexample: the claim says neither pipeline's grouper ever
lists a key in its own candidate list.  The `app.py` clinic grouper only
drops the positionally-first match (`matches[1:]`), so when a distinct
key ties the self-match's score of 100 and precedes it in the stable
order (here `"Main St"` vs `"Main St."`, equal after `full_process`),
the key itself survives in its own candidate list. -/
theorem c2_counterexample :
    ¬ (∀ score : String → String → Nat, ValidScorer score →
        (∀ (col : List String) (mapping : List (String × String))
            (d : List (String × List String)) (k : String) (l : List String),
            getClinicNamesMatchesApp score col mapping = some d →
            findEntry d k = some l → k ∉ l) ∧
        (∀ (batch : List String) (mapping : List (String × String))
            (k : String) (l : List String),
            findEntry (isolatedOrgMatches score batch mapping) k = some l →
            k ∉ l)) := by
  intro h
  obtain ⟨h1, _⟩ := h wScore wScore_valid
  exact h1 ["Main St Onc.", "Main St. Onc."] []
    [("Main St", ["Main St."]), ("Main St.", ["Main St."])] "Main St." ["Main St."]
    (by decide) (by decide) (by decide)

/-- C2 (amended): the organism grouper (both files) filters the matches
by name, `m[0] != org`, so a key never appears in its own candidate list
there — for every scorer, batch and mapping; the clinic grouper excludes
the self-match only positionally and can keep it when a distinct key
ties at the top (see the counterexample). -/
theorem c2_org_self_excluded (score : String → String → Nat) (batch : List String)
    (mapping : List (String × String)) (k : String) (l : List String)
    (hent : findEntry (isolatedOrgMatches score batch mapping) k = some l) :
    k ∉ l := by
  intro hin
  have hmem := findEntry_some_mem hent
  obtain ⟨org, _, hf⟩ := List.mem_filterMap.mp (by simpa [isolatedOrgMatches] using hmem)
  obtain ⟨m0, rest, hms, _, hee⟩ := isoEntry_some_spec hf
  have hko : k = org := congrArg Prod.fst hee
  have hl : l = ((m0 :: rest).filter (fun p => p.2 == m0.2)).map (fun p => p.1) :=
    congrArg Prod.snd hee
  rw [hl] at hin
  obtain ⟨p, hp, hp1⟩ := List.mem_map.mp hin
  have hpm : p ∈ m0 :: rest := (List.mem_filter.mp hp).1
  rw [← hms] at hpm
  have hpne := (List.mem_filter.mp hpm).2
  rw [hp1, hko] at hpne
  simp at hpne

/-- C2 witness: a two-organism batch; the entry keyed `"Staph a"` has
candidate list `["Staph b"]`, which does not contain `"Staph a"`. -/
theorem c2_witness :
    findEntry (isolatedOrgMatches wScore ["Staph a", "Staph b"] []) "Staph a" =
      some ["Staph b"] ∧ "Staph a" ∉ (["Staph b"] : List String) :=
  ⟨by decide,
    c2_org_self_excluded wScore ["Staph a", "Staph b"] [] "Staph a" ["Staph b"]
      (by decide)⟩

/-! ### Claim C10 -/

/-- C10 counterexample: the claim also asserts the clinic *grouper* is
only defined when every cell has a token, but the grouper uses only
`remove_clinic_dept` (`words[:-1]`, safe on empty) and is defined on a
column containing an empty cell. -/
theorem c10_counterexample :
    ¬ (∀ score : String → String → Nat, ValidScorer score →
        ∀ (col : List String) (mapping : List (String × String)),
          getClinicNamesMatchesApp score col mapping ≠ none →
          ∀ s ∈ col, splitWs s.data ≠ []) := by
  intro h
  exact h wScore wScore_valid ["", "a X", "b X"] [] (by decide) "" (by decide)
    (by decide)

/-- C10 (amended): `get_clinic_dept` fails (indexes `words[-1]` of an
empty word list) on every cell that is empty or whitespace-only, so the
clinic *Applier* is only defined when every cell of the column has at
least one token; the grouper does not need this precondition. -/
theorem c10_dept_requires_token (mapping : List (String × String))
    (col : List String) (s : String)
    (hs : splitWs s.data = []) (hmem : s ∈ col) :
    getClinicDept s = none ∧ clinicApplier mapping col = none := by
  have h1 : getClinicDept s = none := by
    unfold getClinicDept
    rw [hs]
    rfl
  refine ⟨h1, ?_⟩
  unfold clinicApplier
  rw [optMapList_none hmem h1]
  rfl

/-- C10 witness: a whitespace-only cell in the column makes
`get_clinic_dept` and the whole clinic applier fail. -/
theorem c10_witness :
    getClinicDept " " = none ∧ clinicApplier [] ["a b", " "] = none :=
  c10_dept_requires_token [] ["a b", " "] " " (by decide) (by decide)

/-! ### Claim C5 -/

/-- C5 counterexample: tie completeness fails in the `app.py` clinic
grouper.  With keys `{"Main St", "Main St."}` (equal after
`full_process`, so scoring 100 both ways), the key `"Main St."` has
`"Main St"` tied at its highest non-self score 100, yet its candidate
list is `["Main St."]` — the tied other key sits at `matches[0]` and is
skipped by the `matches[1:]` slice. -/
theorem c5_counterexample :
    ¬ (∀ score : String → String → Nat, ValidScorer score →
        (∀ (col : List String) (mapping : List (String × String))
            (d : List (String × List String)) (k j : String) (l : List String),
            getClinicNamesMatchesApp score col mapping = some d →
            findEntry d k = some l →
            j ∈ clinicKeySet col → j ≠ k →
            score k j = maxScoreExcl score k (clinicKeySet col) → j ∈ l) ∧
        (∀ (batch : List String) (mapping : List (String × String))
            (k j : String) (l : List String),
            findEntry (isolatedOrgMatches score batch mapping) k = some l →
            j ∈ batch → j ≠ k →
            score k j = maxScoreExcl score k batch → j ∈ l)) := by
  intro h
  obtain ⟨h1, _⟩ := h wScore wScore_valid
  have hmem := h1 ["Main St Onc.", "Main St. Onc."] []
    [("Main St", ["Main St."]), ("Main St.", ["Main St."])] "Main St." "Main St"
    ["Main St."] (by decide) (by decide) (by decide) (by decide) (by decide)
  exact absurd hmem (by decide)

/-- C5 (amended): tie completeness holds in the organism grouper for key
sets within the extract window (at most 10 keys): every other key of the
batch whose score from `k` equals the highest observed non-self score
appears in `k`'s candidate list.  Beyond 10 keys `process.extract`'s
`limit=10` can truncate ties, and the clinic grouper can skip a tied key
that outranks the self-match (see the counterexample). -/
theorem c5_org_tie_complete (score : String → String → Nat) (batch : List String)
    (mapping : List (String × String)) (k j : String) (l : List String)
    (hlen : batch.length ≤ 10) (hj : j ∈ batch) (hjk : j ≠ k)
    (hent : findEntry (isolatedOrgMatches score batch mapping) k = some l)
    (hsc : score k j = maxScoreExcl score k batch) :
    j ∈ l := by
  have hmem := findEntry_some_mem hent
  obtain ⟨org, _, hf⟩ := List.mem_filterMap.mp (by simpa [isolatedOrgMatches] using hmem)
  obtain ⟨m0, rest, hms, _, hee⟩ := isoEntry_some_spec hf
  have hko : org = k := (congrArg Prod.fst hee).symm
  subst hko
  have htake : extractFW score org batch =
      sortDesc (batch.map (fun c => (c, score org c))) := by
    unfold extractFW
    apply take_eq_self_of_le
    rw [length_sortDesc, List.length_map]
    exact hlen
  rw [htake] at hms
  have hjS : (j, score org j) ∈ sortDesc (batch.map (fun c => (c, score org c))) :=
    mem_sortDesc.mpr (List.mem_map.mpr ⟨j, hj, rfl⟩)
  have hjF : (j, score org j) ∈
      (sortDesc (batch.map (fun c => (c, score org c)))).filter
        (fun p => p.1 != org) :=
    List.mem_filter.mpr ⟨hjS, by simpa using hjk⟩
  have hdesc : (m0 :: rest).Pairwise (fun a b => b.2 ≤ a.2) := by
    rw [← hms]
    exact List.Pairwise.sublist (List.filter_sublist _) (scoresDesc_sortDesc _)
  have hhead : ∀ p ∈ m0 :: rest, p.2 ≤ m0.2 := by
    intro p hp
    rcases List.mem_cons.mp hp with rfl | hp
    · exact le_refl _
    · exact (List.pairwise_cons.mp hdesc).1 p hp
  have hm0F : m0 ∈ (sortDesc (batch.map (fun c => (c, score org c)))).filter
      (fun p => p.1 != org) := by
    rw [hms]
    exact List.mem_cons_self _ _
  have hm0S := (List.mem_filter.mp hm0F).1
  have hm0ne := (List.mem_filter.mp hm0F).2
  obtain ⟨c, hc, hcc⟩ := List.mem_map.mp (mem_sortDesc.mp hm0S)
  have hm0le : m0.2 ≤ maxScoreExcl score org batch := by
    apply le_foldr_max
    apply List.mem_map.mpr
    refine ⟨c, List.mem_filter.mpr ⟨hc, ?_⟩, ?_⟩
    · have hc1 : c = m0.1 := congrArg Prod.fst hcc
      rw [hc1]
      exact hm0ne
    · exact congrArg Prod.snd hcc
  have hmaxle : maxScoreExcl score org batch ≤ m0.2 := by
    apply foldr_max_le
    intro a ha
    obtain ⟨c', hc', hca⟩ := List.mem_map.mp ha
    have hcF : (c', score org c') ∈
        (sortDesc (batch.map (fun c => (c, score org c)))).filter
          (fun p => p.1 != org) :=
      List.mem_filter.mpr
        ⟨mem_sortDesc.mpr (List.mem_map.mpr ⟨c', (List.mem_filter.mp hc').1, rfl⟩),
          (List.mem_filter.mp hc').2⟩
    rw [hms] at hcF
    rw [← hca]
    exact hhead _ hcF
  have hjm0 : score org j = m0.2 := by
    have h1 : score org j ≤ m0.2 := by
      have hj2 : (j, score org j) ∈ m0 :: rest := by
        rw [← hms]
        exact hjF
      exact hhead _ hj2
    omega
  have hl : l = ((m0 :: rest).filter (fun p => p.2 == m0.2)).map (fun p => p.1) :=
    congrArg Prod.snd hee
  rw [hl]
  apply List.mem_map.mpr
  refine ⟨(j, score org j), List.mem_filter.mpr ⟨?_, ?_⟩, rfl⟩
  · rw [← hms]
    exact hjF
  · simpa using hjm0

/-- C5 witness: `"Staph aureusX"` and `"Staph aureusY"` tie at score 60
from `"Staph aureus"`; both appear in its candidate list. -/
theorem c5_witness :
    "Staph aureusX" ∈ (["Staph aureusX", "Staph aureusY"] : List String) :=
  c5_org_tie_complete wScore ["Staph aureus", "Staph aureusX", "Staph aureusY"] []
    "Staph aureus" "Staph aureusX" ["Staph aureusX", "Staph aureusY"]
    (by decide) (by decide) (by decide) (by decide) (by decide)
